import Mathlib

/-!
Verification development for the BERTDNAMLM data-preparation pipeline
(`src/utils/masking.py`).  The Python source is shallowly embedded below:

* tensors become (nested) lists over `Nat` (token ids, labels) or `ℚ`
  (logit values);
* Python floats used as rates become `ℚ`, with `pyRound` modelling
  Python's `round` (round-half-to-even);
* the process-wide random source is made explicit: the shuffled candidate
  list is passed as a parameter constrained to be a permutation of the
  candidate list, and the per-position corruption randomness is a stream
  of `Draw` values, where one `Draw` records the branch selected by the
  two independent `random.random()` comparisons and, for the
  random-replacement branch, the value returned by
  `random.randint(0, vocab_size - 1)`;
* fallible Python code (lookups that can produce `None`, the division
  that can raise `ZeroDivisionError`) returns `Option`.
-/

namespace DnaMlm

/-- Python `round` on a rational value: round half to even (banker's
rounding), as CPython does.  `f = Int.ediv q.num q.den` is `⌊q⌋` since
`q.den > 0`, and `rem / q.den` is the fractional part `q - ⌊q⌋`, so the
comparisons of `2 * rem` with `q.den` compare that fractional part with
`1/2` (integer arithmetic is used so that the function evaluates by
kernel reduction). -/
def pyRound (q : ℚ) : ℤ :=
  let f : ℤ := Int.ediv q.num (q.den : ℤ)
  let rem : ℤ := q.num - f * (q.den : ℤ)
  if 2 * rem < (q.den : ℤ) then f
  else if (q.den : ℤ) < 2 * rem then f + 1
  else if f % 2 = 0 then f else f + 1

/-- `n * q` as a rational, computed on the numerator so that it evaluates
by kernel reduction (`ratScaleNat_eq` checks it against `(n : ℚ) * q`). -/
def ratScaleNat (n : Nat) (q : ℚ) : ℚ :=
  mkRat ((n : ℤ) * q.num) q.den

/-- The reserved unknown-symbol token (`Vocab.UNK` in the source). -/
def UNK : String := "[UNK]"

/-- `Vocab.__init__` keeps the ordered line list as `itos` (the `stoi`
dict is recovered from it by `stoiFind`, mirroring dict insertion where a
later duplicate line overwrites an earlier one). -/
structure Vocab where
  itos : List String

/-- The id that the `stoi` dict assigns to `w`: the dict is built by
inserting `(line i, i)` for `i = 0, 1, ...`, so a later assignment wins.
The fold mirrors that insertion loop; `none` means `w` is not a key. -/
def stoiFind (lines : List String) (w : String) : Option Nat :=
  (List.range lines.length).foldl
    (fun acc i => if lines.getD i "" = w then some i else acc) none

/-- `Vocab.__getitem__`: `self.stoi.get(token, self.stoi.get(Vocab.UNK))`.
`none` models the Python `None` that `dict.get` produces when both the
token and `[UNK]` are absent. -/
def Vocab.getitem (v : Vocab) (token : String) : Option Nat :=
  match stoiFind v.itos token with
  | some i => some i
  | none => stoiFind v.itos UNK

/-- `len(vocab)` (`Vocab.__len__`). -/
def Vocab.size (v : Vocab) : Nat := v.itos.length

/-- The parameters of `LoadDNADataset` that the Masking Engine reads:
`PAD_IDX`, the special-token ids obtained from the vocabulary in
`__init__`, the size `len(self.vocab.stoi)` used by `random.randint`,
and `masked_rate`. -/
structure MaskParams where
  PAD_IDX : Nat
  SEP_IDX : Nat
  CLS_IDX : Nat
  MASK_IDS : Nat
  vocabSize : Nat
  masked_rate : ℚ

/-- One outcome of the corruption randomness for one committed position
in `replace_masked_tokens`: `maskDraw` is the branch
`rand_t < masked_token_rate`, `randDraw r` is the branch where the second
`random.random()` exceeds `masked_token_unchanged_rate` and
`random.randint(0, vocab_size - 1)` returns `r`, and `keepDraw` is the
remaining leave-unchanged branch. -/
inductive Draw where
  | maskDraw : Draw
  | randDraw : Nat → Draw
  | keepDraw : Draw

/-- The token id a committed position receives, given its original id and
the drawn corruption outcome. -/
def drawnId (pars : MaskParams) (orig : Nat) : Draw → Nat
  | Draw.maskDraw => pars.MASK_IDS
  | Draw.randDraw r => r
  | Draw.keepDraw => orig

/-- The loop of `replace_masked_tokens`: walk the (shuffled) candidate
positions, breaking once `num_mlm_preds` positions are committed;
each committed position `c` consumes the next `Draw` (indexed by the
number of positions committed so far) and is overwritten in the working
copy, then recorded in `pred_positions`.  Returns the corrupted ids and
`pred_positions`. -/
def replaceLoop (pars : MaskParams) (token_ids : List Nat) (num_mlm_preds : Nat)
    (draws : Nat → Draw) :
    List Nat → List Nat → List Nat → List Nat × List Nat
  | [], mlm, preds => (mlm, preds)
  | c :: cs, mlm, preds =>
    if num_mlm_preds ≤ preds.length then (mlm, preds)
    else
      replaceLoop pars token_ids num_mlm_preds draws cs
        (mlm.set c (drawnId pars (token_ids.getD c 0) (draws preds.length)))
        (preds ++ [c])

/-- `LoadDNADataset.replace_masked_tokens`: run the commit loop starting
from a copy of `token_ids`, then build `mlm_label`: the original id at
committed positions, `PAD_IDX` elsewhere. -/
def replace_masked_tokens (pars : MaskParams) (token_ids : List Nat)
    (candidate_positions : List Nat) (num_mlm_preds : Nat) (draws : Nat → Draw) :
    List Nat × List Nat :=
  let res := replaceLoop pars token_ids num_mlm_preds draws candidate_positions token_ids []
  let mlm_label := (List.range token_ids.length).map
    (fun idx => if idx ∈ res.2 then token_ids.getD idx 0 else pars.PAD_IDX)
  (res.1, mlm_label)

/-- The candidate position list of `get_masked_sample`: every index whose
token id is neither `CLS_IDX` nor `SEP_IDX`. -/
def candidate_pred_positions (pars : MaskParams) (token_ids : List Nat) : List Nat :=
  (List.range token_ids.length).filter
    (fun i => !(token_ids.getD i 0 == pars.CLS_IDX || token_ids.getD i 0 == pars.SEP_IDX))

/-- `num_mlm_preds = max(1, round(len(token_ids) * masked_rate))`.
Python's `max(1, r)` for a possibly negative `r` equals
`max 1 (pyRound _).toNat` since `toNat` clamps at 0. -/
def num_mlm_preds (masked_rate : ℚ) (n : Nat) : Nat :=
  max 1 (pyRound (ratScaleNat n masked_rate)).toNat

/-- `LoadDNADataset.get_masked_sample`.  `shuffled` stands for the result
of `random.shuffle(candidate_pred_positions)`; theorems constrain it to a
permutation of `candidate_pred_positions pars token_ids`. -/
def get_masked_sample (pars : MaskParams) (token_ids shuffled : List Nat)
    (draws : Nat → Draw) : List Nat × List Nat :=
  replace_masked_tokens pars token_ids shuffled
    (num_mlm_preds pars.masked_rate token_ids.length) draws

/-- The target length of `pad_sequence`: `max_len` if given, else
`max([s.size(0) for s in sequences])` (the fold equals the Python `max`
on any non-empty batch; Python raises on an empty one). -/
def targetLen (maxLen? : Option Nat) (lens : List Nat) : Nat :=
  match maxLen? with
  | some m => m
  | none => lens.foldl max 0

/-- The per-tensor body of `pad_sequence`: right-pad with `padVal` when
shorter than `maxLen`, else truncate (`tensor[:max_len]`). -/
def padOne (maxLen padVal : Nat) (s : List Nat) : List Nat :=
  if s.length < maxLen then s ++ List.replicate (maxLen - s.length) padVal
  else s.take maxLen

/-- `torch.stack(out_tensors, dim=1)` for a list of `rows.length` tensors
each of length `T`: the result has shape `[T, rows.length]` with
`out[t][b] = rows[b][t]`. -/
def stackDim1 {α : Type} (d : α) (rows : List (List α)) (T : Nat) : List (List α) :=
  (List.range T).map (fun t => rows.map (fun s => s.getD t d))

/-- `tensor.transpose(0, 1)` on a tensor of shape `[dim0, dim1]`:
the result has shape `[dim1, dim0]` with `out[j][i] = m[i][j]`.  The two
dimensions are passed explicitly because torch tracks them even when one
is zero. -/
def transpose2d {α : Type} (d : α) (dim0 dim1 : Nat) (m : List (List α)) :
    List (List α) :=
  (List.range dim1).map (fun j => (List.range dim0).map (fun i => (m.getD i []).getD j d))

/-- The module-level `pad_sequence`: pad (or truncate) every sequence to
the target length, stack on dim 1, and transpose if `batch_first`. -/
def pad_sequence (sequences : List (List Nat)) (batch_first : Bool)
    (maxLen? : Option Nat) (padVal : Nat) : List (List Nat) :=
  let maxLen := targetLen maxLen? (sequences.map List.length)
  let out := stackDim1 0 (sequences.map (padOne maxLen padVal)) maxLen
  if batch_first then transpose2d 0 maxLen sequences.length out else out

/-- `LoadDNADataset.generate_batch`: pad and stack the token and label
sequences (sequence-major, `batch_first=False`, `max_len=self.max_sen_len`,
`padding_value=self.PAD_IDX`), and derive the padding mask
`(b_token_ids == self.PAD_IDX).transpose(0, 1)` of shape
`[batch_size, T]`. -/
def generate_batch (PAD_IDX : Nat) (max_sen_len : Option Nat)
    (data_batch : List (List Nat × List Nat)) :
    List (List Nat) × List (List Bool) × List (List Nat) :=
  let b_token_ids := pad_sequence (data_batch.map Prod.fst) false max_sen_len PAD_IDX
  let b_mlm_label := pad_sequence (data_batch.map Prod.snd) false max_sen_len PAD_IDX
  let T := targetLen max_sen_len ((data_batch.map Prod.fst).map List.length)
  let b_mask := transpose2d false T data_batch.length
    (b_token_ids.map (fun row => row.map (fun x => x == PAD_IDX)))
  (b_token_ids, b_mask, b_mlm_label)

/-- Worker for `argmaxIdx`: carries the best index and value so far. -/
def argmaxGo (bi : Nat) (bv : ℚ) (i : Nat) : List ℚ → Nat
  | [] => bi
  | y :: ys => if bv < y then argmaxGo i y (i + 1) ys else argmaxGo bi bv (i + 1) ys

/-- `tensor.argmax` over one vocabulary axis: index of the first maximal
value (torch returns the first occurrence on ties). -/
def argmaxIdx (l : List ℚ) : Nat :=
  match l with
  | [] => 0
  | x :: xs => argmaxGo 0 x 1 xs

/-- The `accuracy` function: logits `[T, B, V]` are transposed to
`[B, T, V]`, arg-maxed over the vocabulary axis and flattened; labels
`[T, B]` are transposed and flattened; correct predictions are counted on
non-`PAD_IDX` label positions and divided by the count of those
positions.  The result is `none` exactly when that count is zero, where
Python raises `ZeroDivisionError` (there is no guard in the source). -/
def accuracy (mlm_logits : List (List (List ℚ))) (mlm_labels : List (List Nat))
    (PAD_IDX : Nat) : Option (ℚ × Nat × Nat) :=
  let T := mlm_logits.length
  let B := (mlm_logits.headD []).length
  let mlm_pred :=
    ((transpose2d ([] : List ℚ) T B mlm_logits).map (fun r => r.map argmaxIdx)).flatten
  let Tl := mlm_labels.length
  let Bl := (mlm_labels.headD []).length
  let mlm_true := (transpose2d 0 Tl Bl mlm_labels).flatten
  let mlm_acc := (mlm_pred.zip mlm_true).map (fun pt => pt.1 == pt.2)
  let mask := mlm_true.map (fun t => !(t == PAD_IDX))
  let mlm_and := (mlm_acc.zip mask).map (fun pm => pm.1 && pm.2)
  let mlm_correct := (mlm_and.filter id).length
  let mlm_total := (mask.filter id).length
  if mlm_total = 0 then none
  else some ((mlm_correct : ℚ) / (mlm_total : ℚ), mlm_correct, mlm_total)

/-- `filepath.split('.')[0]`: the prefix of the path before its first
`'.'` (the whole string when there is none). -/
def pySplitDotHead (s : String) : String :=
  String.mk (s.data.takeWhile (fun c => !(c == '.')))

/-- `str(x)[2:]`, applied in the source to the string renderings of the
three rate parameters (dropping a leading `"0."`). -/
def strDrop2 (s : String) : String := String.mk (s.data.drop 2)

/-- The postfix built in `load_train_val_test_data`: the split name
(`'train'`, `'val'` or `'test'`) followed by
`_ml{max_sen_len}_rs{random_state}_mr{str(masked_rate)[2:]}`
`_mtr{str(masked_token_rate)[2:]}_mtur{str(masked_token_unchanged_rate)[2:]}`,
taken over the string renderings of the parameter values. -/
def load_suffix (split mlStr rsStr mrStr mtrStr mturStr : String) : String :=
  split ++ "_ml" ++ mlStr ++ "_rs" ++ rsStr ++ "_mr" ++ strDrop2 mrStr
    ++ "_mtr" ++ strDrop2 mtrStr ++ "_mtur" ++ strDrop2 mturStr

/-- The cache key of the `cache` decorator:
`filepath.split('.')[0] + '_' + postfix + '.pt'`. -/
def cacheDataPath (filepath suffixStr : String) : String :=
  pySplitDotHead filepath ++ "_" ++ suffixStr ++ ".pt"

/-- Concrete parameters matching §8 of the spec: vocabulary
`["[PAD]","[UNK]","[CLS]","[SEP]","[MASK]","A","C","G","T"]` (ids 0-8),
`masked_rate = 0.15`. -/
def pars0 : MaskParams :=
  { PAD_IDX := 0, SEP_IDX := 3, CLS_IDX := 2, MASK_IDS := 4,
    vocabSize := 9, masked_rate := mkRat 15 100 }

/-- The concrete vocabulary of the spec's §8 scenario. -/
def vocab0 : Vocab :=
  ⟨["[PAD]", "[UNK]", "[CLS]", "[SEP]", "[MASK]", "A", "C", "G", "T"]⟩

/-! ### Helper lemmas about list indexing -/

/-- Sanity check of the kernel-friendly scaling: `ratScaleNat n q` is the
rational product `(n : ℚ) * q`. -/
theorem ratScaleNat_eq (n : Nat) (q : ℚ) : ratScaleNat n q = (n : ℚ) * q := by
  unfold ratScaleNat
  rw [Rat.mkRat_eq_divInt, Rat.divInt_eq_div]
  push_cast
  rw [mul_div_assoc, Rat.num_div_den]

/-- `getD` through a `map`, inside bounds. -/
theorem getD_map_of_lt {α β : Type} (d : α) (d' : β) (f : α → β) {l : List α} {i : Nat}
    (h : i < l.length) : (l.map f).getD i d' = f (l.getD i d) := by
  rw [List.getD_eq_getElem _ _ (by simpa using h), List.getD_eq_getElem _ _ h,
    List.getElem_map]

/-- `getD` on `List.range`, inside bounds. -/
theorem getD_range_of_lt {i n d : Nat} (h : i < n) : (List.range n).getD i d = i := by
  rw [List.getD_eq_getElem _ _ (by simpa using h), List.getElem_range]

/-- `getD` of a `map` over `List.range`, inside bounds. -/
theorem getD_map_range {β : Type} (f : Nat → β) (d : β) {i n : Nat} (h : i < n) :
    ((List.range n).map f).getD i d = f i := by
  rw [getD_map_of_lt 0 d f (by simpa using h), getD_range_of_lt h]

/-- `getD` after `set` at a different index. -/
theorem getD_set_ne {α : Type} {l : List α} {c i : Nat} {v : α} (h : c ≠ i) (d : α) :
    (l.set c v).getD i d = l.getD i d := by
  simp [List.getD_eq_getElem?_getD, List.getElem?_set_ne h]

/-- `getD` after `set` at the written index, inside bounds. -/
theorem getD_set_self {α : Type} {l : List α} {c : Nat} {v : α} (h : c < l.length) (d : α) :
    (l.set c v).getD c d = v := by
  simp [List.getD_eq_getElem?_getD, List.getElem?_set_self h]

/-! ### Characterisation of `stoiFind` -/

/-- A left fold that overwrites the accumulator at every index satisfying
`P` ends at the last such index (or the initial accumulator). -/
theorem foldl_if_getLast (P : Nat → Prop) [DecidablePred P] :
    ∀ (l : List Nat) (acc : Option Nat),
      l.foldl (fun a i => if P i then some i else a) acc
        = ((l.filter (fun i => decide (P i))).getLast?).elim acc some := by
  intro l
  induction l with
  | nil => intro acc; simp
  | cons x l ih =>
    intro acc
    rw [List.foldl_cons, ih]
    by_cases hx : P x
    · rw [List.filter_cons_of_pos (by simpa using hx), if_pos hx, List.getLast?_cons]
      cases h : (l.filter (fun i => decide (P i))).getLast? <;> simp [h]
    · rw [List.filter_cons_of_neg (by simpa using hx), if_neg hx]

/-- `stoiFind` returns the last index of the symbol in the line list
(dict insertion with overwrite). -/
theorem stoiFind_eq (lines : List String) (w : String) :
    stoiFind lines w
      = ((List.range lines.length).filter
          (fun i => decide (lines.getD i "" = w))).getLast? := by
  unfold stoiFind
  rw [foldl_if_getLast (fun i => lines.getD i "" = w)]
  cases h : ((List.range lines.length).filter
      (fun i => decide (lines.getD i "" = w))).getLast? <;> simp [h]

/-- Soundness: a found id is a valid index holding the symbol. -/
theorem stoiFind_some_sound {lines : List String} {w : String} {j : Nat}
    (h : stoiFind lines w = some j) : j < lines.length ∧ lines.getD j "" = w := by
  rw [stoiFind_eq] at h
  have hmem := List.mem_of_getLast?_eq_some h
  obtain ⟨h1, h2⟩ := List.mem_filter.mp hmem
  exact ⟨List.mem_range.mp h1, of_decide_eq_true h2⟩

/-- `stoiFind` fails exactly on symbols absent from the line list. -/
theorem stoiFind_none_iff {lines : List String} {w : String} :
    stoiFind lines w = none ↔ w ∉ lines := by
  rw [stoiFind_eq, List.getLast?_eq_none_iff, List.filter_eq_nil_iff]
  constructor
  · intro h hw
    obtain ⟨i, hi, rfl⟩ := List.mem_iff_getElem.mp hw
    have := h i (List.mem_range.mpr hi)
    exact this (decide_eq_true (List.getD_eq_getElem _ _ hi))
  · intro hw i hi hdec
    have heq : lines.getD i "" = w := of_decide_eq_true hdec
    have hilt := List.mem_range.mp hi
    exact hw (heq ▸ (List.getD_eq_getElem _ _ hilt ▸ List.getElem_mem hilt))

/-- A nodup list whose members all equal `a`, containing `a`, is `[a]`. -/
theorem nodup_all_eq_singleton {l : List Nat} {a : Nat} (hnd : l.Nodup)
    (hall : ∀ x ∈ l, x = a) (hmem : a ∈ l) : l = [a] := by
  cases l with
  | nil => cases hmem
  | cons x t =>
    have hx : x = a := hall x (List.mem_cons_self x t)
    subst hx
    have ht : t = [] := by
      rw [List.eq_nil_iff_forall_not_mem]
      intro y hy
      have : y = x := hall y (List.mem_cons_of_mem _ hy)
      subst this
      exact (List.nodup_cons.mp hnd).1 hy
    rw [ht]

/-- A filter of `List.range n` whose predicate holds exactly at `i < n`
is the singleton `[i]`. -/
theorem filter_range_eq_singleton {n i : Nat} (p : Nat → Bool) (hi : i < n)
    (hp : ∀ j, j < n → (p j = true ↔ j = i)) :
    (List.range n).filter p = [i] := by
  refine nodup_all_eq_singleton ((List.nodup_range n).filter p) ?_ ?_
  · intro x hx
    obtain ⟨h1, h2⟩ := List.mem_filter.mp hx
    exact (hp x (List.mem_range.mp h1)).mp h2
  · exact List.mem_filter.mpr ⟨List.mem_range.mpr hi, (hp i hi).mpr rfl⟩

/-- On a duplicate-free line list, looking up the symbol at index `i`
finds `i`. -/
theorem stoiFind_nodup_roundtrip {lines : List String} (hnd : lines.Nodup)
    {i : Nat} (hi : i < lines.length) :
    stoiFind lines (lines.getD i "") = some i := by
  rw [stoiFind_eq,
    filter_range_eq_singleton _ hi ?_, List.getLast?_singleton]
  intro j hj
  simp only [decide_eq_true_eq]
  rw [List.getD_eq_getElem _ _ hj, List.getD_eq_getElem _ _ hi]
  exact hnd.getElem_inj_iff

/-! ### Invariants of the masking loop -/

/-- Main invariant of `replaceLoop`: lengths are preserved; positions not
in the returned `pred_positions` are untouched; positions in it hold an
original id, the mask id, or a valid random id; and every returned
position comes from the initial state or the candidate list. -/
theorem replaceLoop_spec (pars : MaskParams) (tid : List Nat) (k : Nat)
    (draws : Nat → Draw)
    (hvalid : ∀ n r, draws n = Draw.randDraw r → r < pars.vocabSize) :
    ∀ (cs mlm preds : List Nat),
      mlm.length = tid.length →
      (∀ i, i ∉ preds → mlm.getD i 0 = tid.getD i 0) →
      (∀ i, i ∈ preds →
        mlm.getD i 0 = tid.getD i 0 ∨ mlm.getD i 0 = pars.MASK_IDS ∨
          mlm.getD i 0 < pars.vocabSize) →
      (replaceLoop pars tid k draws cs mlm preds).1.length = tid.length ∧
      (∀ i, i ∉ (replaceLoop pars tid k draws cs mlm preds).2 →
        (replaceLoop pars tid k draws cs mlm preds).1.getD i 0 = tid.getD i 0) ∧
      (∀ i, i ∈ (replaceLoop pars tid k draws cs mlm preds).2 →
        (replaceLoop pars tid k draws cs mlm preds).1.getD i 0 = tid.getD i 0 ∨
        (replaceLoop pars tid k draws cs mlm preds).1.getD i 0 = pars.MASK_IDS ∨
        (replaceLoop pars tid k draws cs mlm preds).1.getD i 0 < pars.vocabSize) ∧
      (∀ i, i ∈ (replaceLoop pars tid k draws cs mlm preds).2 →
        i ∈ preds ∨ i ∈ cs) := by
  intro cs
  induction cs with
  | nil =>
    intro mlm preds hlen hout hin
    refine ⟨hlen, hout, hin, fun i hi => Or.inl hi⟩
  | cons c cs ih =>
    intro mlm preds hlen hout hin
    by_cases hk : k ≤ preds.length
    · simp only [replaceLoop, if_pos hk]
      exact ⟨hlen, hout, hin, fun i hi => Or.inl hi⟩
    · simp only [replaceLoop, if_neg hk]
      have hres := ih (mlm.set c (drawnId pars (tid.getD c 0) (draws preds.length)))
        (preds ++ [c]) ?_ ?_ ?_
      · refine ⟨hres.1, hres.2.1, hres.2.2.1, fun i hi => ?_⟩
        rcases hres.2.2.2 i hi with hp | hc
        · rcases List.mem_append.mp hp with hp | hp
          · exact Or.inl hp
          · exact Or.inr (List.mem_cons.mpr (Or.inl (List.mem_singleton.mp hp)))
        · exact Or.inr (List.mem_cons.mpr (Or.inr hc))
      · simpa using hlen
      · intro i hi
        have hi' : i ∉ preds ∧ i ≠ c := by
          constructor
          · exact fun h => hi (List.mem_append.mpr (Or.inl h))
          · exact fun h => hi (List.mem_append.mpr (Or.inr (List.mem_singleton.mpr h)))
        rw [getD_set_ne (fun h => hi'.2 h.symm) 0]
        exact hout i hi'.1
      · intro i hi
        rcases List.mem_append.mp hi with hp | hc
        · by_cases hic : c = i
          · subst hic
            by_cases hcl : c < mlm.length
            · rw [getD_set_self hcl 0]
              cases hd : draws preds.length with
              | maskDraw => exact Or.inr (Or.inl rfl)
              | randDraw r => exact Or.inr (Or.inr (hvalid _ _ hd))
              | keepDraw => exact Or.inl rfl
            · have hcl' : mlm.length ≤ c := Nat.le_of_not_lt hcl
              have h1 : (mlm.set c (drawnId pars (tid.getD c 0)
                  (draws preds.length))).getD c 0 = 0 := by
                rw [List.getD_eq_getElem?_getD, List.getElem?_eq_none (by simpa using hcl')]
                rfl
              have h2 : tid.getD c 0 = 0 := by
                rw [List.getD_eq_getElem?_getD, List.getElem?_eq_none (hlen ▸ hcl')]
                rfl
              exact Or.inl (h1.trans h2.symm)
          · rw [getD_set_ne hic 0]
            exact hin i hp
        · have hic : i = c := List.mem_singleton.mp hc
          subst hic
          by_cases hcl : i < mlm.length
          · rw [getD_set_self hcl 0]
            cases hd : draws preds.length with
            | maskDraw => exact Or.inr (Or.inl rfl)
            | randDraw r => exact Or.inr (Or.inr (hvalid _ _ hd))
            | keepDraw => exact Or.inl rfl
          · have hcl' : mlm.length ≤ i := Nat.le_of_not_lt hcl
            have h1 : (mlm.set i (drawnId pars (tid.getD i 0)
                (draws preds.length))).getD i 0 = 0 := by
              rw [List.getD_eq_getElem?_getD, List.getElem?_eq_none (by simpa using hcl')]
              rfl
            have h2 : tid.getD i 0 = 0 := by
              rw [List.getD_eq_getElem?_getD, List.getElem?_eq_none (hlen ▸ hcl')]
              rfl
            exact Or.inl (h1.trans h2.symm)

/-- Committed positions come from the initial state or the candidate
list (no validity assumption on the draw stream needed). -/
theorem replaceLoop_preds_subset (pars : MaskParams) (tid : List Nat) (k : Nat)
    (draws : Nat → Draw) :
    ∀ (cs mlm preds : List Nat),
      ∀ i ∈ (replaceLoop pars tid k draws cs mlm preds).2, i ∈ preds ∨ i ∈ cs := by
  intro cs
  induction cs with
  | nil =>
    intro mlm preds i hi
    simp only [replaceLoop] at hi
    exact Or.inl hi
  | cons c cs ih =>
    intro mlm preds i hi
    by_cases hk : k ≤ preds.length
    · simp only [replaceLoop, if_pos hk] at hi
      exact Or.inl hi
    · simp only [replaceLoop, if_neg hk] at hi
      rcases ih _ _ i hi with hp | hc
      · rcases List.mem_append.mp hp with hp | hp
        · exact Or.inl hp
        · exact Or.inr (List.mem_cons.mpr (Or.inl (List.mem_singleton.mp hp)))
      · exact Or.inr (List.mem_cons.mpr (Or.inr hc))

/-- The number of committed positions: the loop commits candidates until
`k` are reached or the list is exhausted. -/
theorem replaceLoop_preds_length (pars : MaskParams) (tid : List Nat) (k : Nat)
    (draws : Nat → Draw) :
    ∀ (cs mlm preds : List Nat),
      (replaceLoop pars tid k draws cs mlm preds).2.length
        = if k ≤ preds.length then preds.length
          else min k (preds.length + cs.length) := by
  intro cs
  induction cs with
  | nil =>
    intro mlm preds
    simp only [replaceLoop, List.length_nil]
    split <;> omega
  | cons c cs ih =>
    intro mlm preds
    by_cases hk : k ≤ preds.length
    · simp only [replaceLoop, if_pos hk]
    · simp only [replaceLoop, if_neg hk]
      rw [ih]
      simp only [List.length_append, List.length_cons, List.length_nil]
      split <;> omega

/-- The committed positions are duplicate-free whenever the initial state
joined with the candidates is. -/
theorem replaceLoop_preds_nodup (pars : MaskParams) (tid : List Nat) (k : Nat)
    (draws : Nat → Draw) :
    ∀ (cs mlm preds : List Nat), (preds ++ cs).Nodup →
      (replaceLoop pars tid k draws cs mlm preds).2.Nodup := by
  intro cs
  induction cs with
  | nil =>
    intro mlm preds h
    simpa [replaceLoop] using h
  | cons c cs ih =>
    intro mlm preds h
    by_cases hk : k ≤ preds.length
    · simp only [replaceLoop, if_pos hk]
      exact ((List.sublist_append_left preds (c :: cs)).nodup h)
    · simp only [replaceLoop, if_neg hk]
      apply ih
      rw [List.append_assoc, List.singleton_append]
      exact h

/-! ### Collation lemmas -/

/-- A padded-or-truncated tensor always has the target length. -/
theorem padOne_length (T p : Nat) (s : List Nat) : (padOne T p s).length = T := by
  unfold padOne
  split
  · simp; omega
  · simp; omega

/-- Pointwise description of `padOne` inside the target length. -/
theorem padOne_getD {T p : Nat} {s : List Nat} {t : Nat} (ht : t < T) :
    (padOne T p s).getD t 0 = if t < s.length then s.getD t 0 else p := by
  unfold padOne
  split
  · case isTrue h =>
    by_cases hts : t < s.length
    · rw [if_pos hts, List.getD_eq_getElem?_getD, List.getElem?_append_left hts,
        ← List.getD_eq_getElem?_getD]
    · rw [if_neg hts, List.getD_eq_getElem?_getD,
        List.getElem?_append_right (Nat.le_of_not_lt hts),
        List.getElem?_replicate, if_pos (by omega)]
      rfl
  · case isFalse h =>
    have hts : t < s.length := Nat.lt_of_lt_of_le ht (Nat.le_of_not_lt h)
    rw [if_pos hts, List.getD_eq_getElem?_getD, List.getElem?_take_of_lt ht,
      ← List.getD_eq_getElem?_getD]

/-- A stacked tensor has the target number of rows. -/
theorem stackDim1_length {α : Type} (d : α) (rows : List (List α)) (T : Nat) :
    (stackDim1 d rows T).length = T := by
  simp [stackDim1]

/-- Row `t` of a stacked tensor collects entry `t` of every input tensor. -/
theorem stackDim1_getD {α : Type} (d : α) (rows : List (List α)) {T t : Nat}
    (ht : t < T) :
    (stackDim1 d rows T).getD t [] = rows.map (fun s => s.getD t d) := by
  unfold stackDim1
  rw [getD_map_range _ _ ht]

/-- Every row of a stacked tensor has one entry per input tensor. -/
theorem stackDim1_row_length {α : Type} (d : α) (rows : List (List α)) (T : Nat) :
    ∀ row ∈ stackDim1 d rows T, row.length = rows.length := by
  intro row hrow
  obtain ⟨t, _, rfl⟩ := List.mem_map.mp hrow
  exact List.length_map ..

/-- A transposed tensor has `dim1` rows. -/
theorem transpose2d_length {α : Type} (d : α) (dim0 dim1 : Nat) (m : List (List α)) :
    (transpose2d d dim0 dim1 m).length = dim1 := by
  simp [transpose2d]

/-- Every row of a transposed tensor has `dim0` entries. -/
theorem transpose2d_row_length {α : Type} (d : α) (dim0 dim1 : Nat) (m : List (List α)) :
    ∀ row ∈ transpose2d d dim0 dim1 m, row.length = dim0 := by
  intro row hrow
  obtain ⟨j, _, rfl⟩ := List.mem_map.mp hrow
  simp

/-- Pointwise description of a transposed tensor. -/
theorem transpose2d_getD {α : Type} (d : α) (dim0 dim1 : Nat) (m : List (List α))
    {i j : Nat} (hi : i < dim0) (hj : j < dim1) :
    ((transpose2d d dim0 dim1 m).getD j []).getD i d = (m.getD i []).getD j d := by
  unfold transpose2d
  rw [getD_map_range _ _ hj, getD_map_range _ _ hi]

/-- Membership in the flattened transpose of a rectangular tensor is
membership in some row of the tensor. -/
theorem mem_transpose2d_flatten {α : Type} (d : α) (m : List (List α))
    (hrect : ∀ r ∈ m, r.length = (m.headD []).length) (x : α) :
    x ∈ (transpose2d d m.length (m.headD []).length m).flatten ↔ ∃ r ∈ m, x ∈ r := by
  unfold transpose2d
  rw [List.mem_flatten]
  constructor
  · rintro ⟨row, hrow, hx⟩
    obtain ⟨j, hj, rfl⟩ := List.mem_map.mp hrow
    obtain ⟨i, hi, rfl⟩ := List.mem_map.mp hx
    rw [List.mem_range] at hi hj
    have hmem : m.getD i [] ∈ m := by
      rw [List.getD_eq_getElem _ _ hi]
      exact List.getElem_mem hi
    refine ⟨m.getD i [], hmem, ?_⟩
    have hj' : j < (m.getD i []).length := by
      rw [hrect _ hmem]; exact hj
    rw [List.getD_eq_getElem _ _ hj']
    exact List.getElem_mem hj'
  · rintro ⟨r, hr, hx⟩
    obtain ⟨i, hi, hri⟩ := List.mem_iff_getElem.mp hr
    obtain ⟨j, hj, hxj⟩ := List.mem_iff_getElem.mp hx
    have hjB : j < (m.headD []).length := by
      rw [← hrect _ hr]; exact hj
    refine ⟨(List.range m.length).map (fun i' => (m.getD i' []).getD j d),
      List.mem_map.mpr ⟨j, List.mem_range.mpr hjB, rfl⟩,
      List.mem_map.mpr ⟨i, List.mem_range.mpr hi, ?_⟩⟩
    rw [List.getD_eq_getElem _ _ hi, hri]
    rw [List.getD_eq_getElem _ _ (hri ▸ hj), hxj]

/-! ### Claim theorems -/

/-- C4: on the empty input sequence the Masking Engine computes
`num_mlm_preds = max(1, round(0 * masked_rate)) = 1` although there are
zero candidates, and still returns an empty corrupted sequence and an
empty label sequence without failure. -/
theorem get_masked_sample_empty (pars : MaskParams) (shuffled : List Nat)
    (draws : Nat → Draw)
    (hperm : shuffled.Perm (candidate_pred_positions pars [])) :
    num_mlm_preds pars.masked_rate 0 = 1 ∧
    get_masked_sample pars [] shuffled draws = ([], []) := by
  have hc : candidate_pred_positions pars [] = [] := by
    simp [candidate_pred_positions]
  rw [hc] at hperm
  have hs : shuffled = [] := hperm.eq_nil
  subst hs
  constructor
  · unfold num_mlm_preds
    have h0 : ratScaleNat 0 pars.masked_rate = 0 := by
      unfold ratScaleNat
      simp
    rw [h0]
    decide
  · rfl

/-- C4 witness: the concrete parameters of the spec scenario with the
empty sequence. -/
theorem get_masked_sample_empty_witness :
    ([] : List Nat).Perm (candidate_pred_positions pars0 []) ∧
    (num_mlm_preds pars0.masked_rate 0 = 1 ∧
      get_masked_sample pars0 [] [] (fun _ => Draw.keepDraw) = ([], [])) :=
  ⟨by decide, get_masked_sample_empty pars0 [] (fun _ => Draw.keepDraw) (by decide)⟩

/-- C5: vocabulary lookup of a present symbol returns its assigned id;
lookup of an absent symbol returns the id assigned to `[UNK]`; and the
lookup yields no id at all (the Python `None`, which aborts the run as
soon as it is used as an id) exactly when the symbol is absent and
`[UNK]` is itself missing from the vocabulary. -/
theorem vocab_lookup_fallback (v : Vocab) (token : String) :
    (∀ i, stoiFind v.itos token = some i → v.getitem token = some i) ∧
    (stoiFind v.itos token = none → v.getitem token = stoiFind v.itos UNK) ∧
    (v.getitem token = none ↔ token ∉ v.itos ∧ UNK ∉ v.itos) := by
  refine ⟨?_, ?_, ?_⟩
  · intro i h
    unfold Vocab.getitem
    rw [h]
  · intro h
    unfold Vocab.getitem
    rw [h]
  · unfold Vocab.getitem
    cases h : stoiFind v.itos token with
    | some i =>
      constructor
      · intro habs
        cases habs
      · rintro ⟨h1, _⟩
        have hnone := stoiFind_none_iff.mpr h1
        rw [h] at hnone
        cases hnone
    | none =>
      have htok : token ∉ v.itos := stoiFind_none_iff.mp h
      rw [stoiFind_none_iff]
      exact ⟨fun h2 => ⟨htok, h2⟩, fun h2 => h2.2⟩

/-- C5 witness: in a vocabulary missing both the symbol and `[UNK]`,
lookup yields no id. -/
theorem vocab_lookup_fallback_witness :
    Vocab.getitem ⟨["X"]⟩ "Z" = none :=
  (vocab_lookup_fallback ⟨["X"]⟩ "Z").2.2.mpr (by decide)

/-- C6 (amended): the cache key is a function of only the source path's
prefix before its first `'.'` and the postfix string; configurations
agreeing on those — even with different source paths, or different
values of parameters absent from the postfix (initial site, replication
count, max position embeddings) — receive the same key. -/
theorem cache_key_stem_dependence (fp1 fp2 suffixStr : String)
    (h : pySplitDotHead fp1 = pySplitDotHead fp2) :
    cacheDataPath fp1 suffixStr = cacheDataPath fp2 suffixStr := by
  unfold cacheDataPath
  rw [h]

/-- C6 counterexample: two distinct source paths (different source data)
with identical parameters derive the same cache key, refuting injectivity
of the key on the inputs that affect the processed output. -/
theorem cache_key_collision :
    cacheDataPath "data/mouse.v1.csv"
        (load_suffix "train" "512" "2022" "0.15" "0.8" "0.5")
      = cacheDataPath "data/mouse.v2.csv"
        (load_suffix "train" "512" "2022" "0.15" "0.8" "0.5")
    ∧ "data/mouse.v1.csv" ≠ "data/mouse.v2.csv" := by
  constructor
  · rfl
  · decide

/-- C6 witness for the amended claim at concrete paths. -/
theorem cache_key_stem_dependence_witness :
    pySplitDotHead "a.v1.csv" = pySplitDotHead "a.v2.csv" ∧
    cacheDataPath "a.v1.csv" "train_ml512" = cacheDataPath "a.v2.csv" "train_ml512" :=
  ⟨by decide, cache_key_stem_dependence "a.v1.csv" "a.v2.csv" "train_ml512" (by decide)⟩

/-- C7 (amended): for a vocabulary whose symbol list has no duplicates,
`lookup(itos[i]) = i` for every valid index; and for every vocabulary
and known symbol `s` (i.e. `stoi` maps `s` to `j`), `itos[j] = s`. -/
theorem vocab_roundtrip (v : Vocab) :
    (v.itos.Nodup → ∀ i, i < v.itos.length → v.getitem (v.itos.getD i "") = some i) ∧
    (∀ s j, stoiFind v.itos s = some j → v.itos.getD j "" = s) := by
  constructor
  · intro hnd i hi
    unfold Vocab.getitem
    rw [stoiFind_nodup_roundtrip hnd hi]
  · intro s j h
    exact (stoiFind_some_sound h).2

/-- C7 counterexample: with a duplicated symbol the dict keeps the last
id, so `lookup(itos[0])` returns `1`, not `0`. -/
theorem vocab_roundtrip_duplicate_counterexample :
    ¬ (Vocab.getitem ⟨["A", "A"]⟩ ((["A", "A"] : List String).getD 0 "") = some 0) := by
  decide

/-- C7 witness at the spec's concrete vocabulary. -/
theorem vocab_roundtrip_witness :
    vocab0.itos.Nodup ∧
    vocab0.getitem (vocab0.itos.getD 5 "") = some 5 ∧
    vocab0.itos.getD 6 "" = "C" :=
  ⟨by decide, (vocab_roundtrip vocab0).1 (by decide) 5 (by decide),
    (vocab_roundtrip vocab0).2 "C" 6 (by decide)⟩

/-- C9: the random-replacement branch draws from the full range
`[0, vocab_size)` with no exclusion of reserved ids, so with sequence
`[CLS] A [SEP]`, the single candidate position committed, and the
random draw returning `0 = PAD_IDX < vocab_size`, the corrupted token at
the real data position equals `PAD_IDX`; collating that sample then
marks this non-padding position `True` in the padding mask. -/
theorem random_replacement_pad_mask :
    candidate_pred_positions pars0 [2, 5, 3] = [1] ∧
    get_masked_sample pars0 [2, 5, 3] [1] (fun _ => Draw.randDraw 0)
      = ([2, 0, 3], [0, 5, 0]) ∧
    pars0.PAD_IDX = 0 ∧ 0 < pars0.vocabSize ∧
    (generate_batch pars0.PAD_IDX none [([2, 0, 3], [0, 5, 0])]).2.1
      = [[false, true, false]] := by
  decide

/-- C1: for every tokenized sequence and every outcome of the random
draws (any shuffle of the candidates, any branch/randint outcomes with
randint values in `[0, vocab_size)`), the Masking Engine's outputs both
have the input's length, and at every index either the position was
committed — its label is the original id and its corrupted token is the
original id, the `[MASK]` id, or a value below `vocab_size`, and the
token there is neither `[CLS]` nor `[SEP]` — or it was not committed —
its corrupted token is the original id and its label is `PAD_IDX`. -/
theorem masking_output_invariant (pars : MaskParams) (tid shuffled : List Nat)
    (draws : Nat → Draw)
    (hperm : shuffled.Perm (candidate_pred_positions pars tid))
    (hvalid : ∀ n r, draws n = Draw.randDraw r → r < pars.vocabSize) :
    (get_masked_sample pars tid shuffled draws).1.length = tid.length ∧
    (get_masked_sample pars tid shuffled draws).2.length = tid.length ∧
    ∀ i, i < tid.length →
      ((get_masked_sample pars tid shuffled draws).2.getD i 0 = tid.getD i 0 ∧
        ((get_masked_sample pars tid shuffled draws).1.getD i 0 = tid.getD i 0 ∨
         (get_masked_sample pars tid shuffled draws).1.getD i 0 = pars.MASK_IDS ∨
         (get_masked_sample pars tid shuffled draws).1.getD i 0 < pars.vocabSize) ∧
        ¬(tid.getD i 0 = pars.CLS_IDX ∨ tid.getD i 0 = pars.SEP_IDX)) ∨
      ((get_masked_sample pars tid shuffled draws).1.getD i 0 = tid.getD i 0 ∧
        (get_masked_sample pars tid shuffled draws).2.getD i 0 = pars.PAD_IDX) := by
  simp only [get_masked_sample, replace_masked_tokens]
  have hmain := replaceLoop_spec pars tid (num_mlm_preds pars.masked_rate tid.length)
    draws hvalid shuffled tid [] rfl (fun i _ => rfl)
    (fun i hi => absurd hi (List.not_mem_nil i))
  obtain ⟨h1, h2, h3, h4⟩ := hmain
  refine ⟨h1, by simp, ?_⟩
  intro i hi
  by_cases hip :
      i ∈ (replaceLoop pars tid (num_mlm_preds pars.masked_rate tid.length)
        draws shuffled tid []).2
  · left
    refine ⟨?_, h3 i hip, ?_⟩
    · rw [getD_map_range _ _ hi, if_pos hip]
    · have hcand : i ∈ candidate_pred_positions pars tid := by
        rcases h4 i hip with h | h
        · exact absurd h (List.not_mem_nil i)
        · exact hperm.mem_iff.mp h
      have hfil := (List.mem_filter.mp hcand).2
      simpa using hfil
  · right
    refine ⟨h2 i hip, ?_⟩
    rw [getD_map_range _ _ hi, if_neg hip]

/-- C1 witness: spec §8 scenario, identity shuffle, all-mask draws. -/
theorem masking_output_invariant_witness :
    (candidate_pred_positions pars0 [2, 5, 6, 7, 8, 3]).Perm
        (candidate_pred_positions pars0 [2, 5, 6, 7, 8, 3]) ∧
    (∀ n r, (fun _ : Nat => Draw.maskDraw) n = Draw.randDraw r → r < pars0.vocabSize) ∧
    (get_masked_sample pars0 [2, 5, 6, 7, 8, 3]
        (candidate_pred_positions pars0 [2, 5, 6, 7, 8, 3])
        (fun _ => Draw.maskDraw)).1.length = ([2, 5, 6, 7, 8, 3] : List Nat).length :=
  ⟨List.Perm.refl _, fun _ _ h => Draw.noConfusion h,
    (masking_output_invariant pars0 [2, 5, 6, 7, 8, 3]
      (candidate_pred_positions pars0 [2, 5, 6, 7, 8, 3]) (fun _ => Draw.maskDraw)
      (List.Perm.refl _) (fun _ _ h => Draw.noConfusion h)).1⟩

/-- C2 (amended): for every tokenized sequence with at least one
non-special position, in which no candidate position holds the token id
`PAD_IDX`, the number of label positions with label `≠ PAD_IDX` equals
`min (max 1 (round (len * masked_rate))) (number of candidates)` for
every outcome of the draws.  (A committed position whose original token
id is `PAD_IDX` would receive label `PAD_IDX` and make the count fall
short; see the counterexample.) -/
theorem masked_label_count (pars : MaskParams) (tid shuffled : List Nat)
    (draws : Nat → Draw)
    (hperm : shuffled.Perm (candidate_pred_positions pars tid))
    (hne : candidate_pred_positions pars tid ≠ [])
    (hpad : ∀ i ∈ candidate_pred_positions pars tid, tid.getD i 0 ≠ pars.PAD_IDX) :
    (get_masked_sample pars tid shuffled draws).2.countP (fun l => !(l == pars.PAD_IDX))
      = min (num_mlm_preds pars.masked_rate tid.length)
          (candidate_pred_positions pars tid).length := by
  simp only [get_masked_sample, replace_masked_tokens]
  have hsub : ∀ i ∈ (replaceLoop pars tid (num_mlm_preds pars.masked_rate tid.length)
      draws shuffled tid []).2, i ∈ candidate_pred_positions pars tid := by
    intro i hi
    rcases replaceLoop_preds_subset pars tid _ draws shuffled tid [] i hi with h | h
    · exact absurd h (List.not_mem_nil i)
    · exact hperm.mem_iff.mp h
  have hnodup : (replaceLoop pars tid (num_mlm_preds pars.masked_rate tid.length)
      draws shuffled tid []).2.Nodup := by
    apply replaceLoop_preds_nodup
    simpa using hperm.nodup_iff.mpr
      (List.Nodup.filter _ (List.nodup_range tid.length))
  have hlt : ∀ i ∈ (replaceLoop pars tid (num_mlm_preds pars.masked_rate tid.length)
      draws shuffled tid []).2, i < tid.length := by
    intro i hi
    exact List.mem_range.mp (List.mem_filter.mp (hsub i hi)).1
  rw [List.countP_map]
  rw [List.countP_congr (q := fun i =>
      decide (i ∈ (replaceLoop pars tid (num_mlm_preds pars.masked_rate tid.length)
        draws shuffled tid []).2)) ?_]
  · rw [List.countP_eq_length_filter]
    have hperm2 : ((List.range tid.length).filter (fun i =>
        decide (i ∈ (replaceLoop pars tid (num_mlm_preds pars.masked_rate tid.length)
          draws shuffled tid []).2))).Perm
        (replaceLoop pars tid (num_mlm_preds pars.masked_rate tid.length)
          draws shuffled tid []).2 := by
      refine (List.perm_ext_iff_of_nodup
        (List.Nodup.filter _ (List.nodup_range tid.length)) hnodup).mpr ?_
      intro a
      rw [List.mem_filter, List.mem_range]
      constructor
      · rintro ⟨_, h⟩
        exact of_decide_eq_true h
      · intro h
        exact ⟨hlt a h, decide_eq_true h⟩
    rw [hperm2.length_eq, replaceLoop_preds_length]
    have hk1 : 1 ≤ num_mlm_preds pars.masked_rate tid.length := le_max_left _ _
    rw [if_neg (by simp; omega)]
    rw [hperm.length_eq]
    simp
  · intro x hx
    simp only [Function.comp_apply]
    by_cases hxp : x ∈ (replaceLoop pars tid (num_mlm_preds pars.masked_rate tid.length)
        draws shuffled tid []).2
    · rw [if_pos hxp]
      have hne' := hpad x (hsub x hxp)
      rw [List.getD_eq_getElem?_getD] at hne'
      simp [hxp, hne']
    · rw [if_neg hxp]
      simp [hxp]

/-- C2 counterexample: with sequence `[0]` (a candidate position holding
the token id `PAD_IDX`) and the leave-unchanged draw, the committed
position's label equals `PAD_IDX`, so the count of non-`PAD_IDX` labels
is `0`, not `min(max(1, round(len * masked_rate)), 1) = 1`. -/
theorem masked_label_count_pad_counterexample :
    candidate_pred_positions pars0 [0] ≠ [] ∧
    ¬ ((get_masked_sample pars0 [0] (candidate_pred_positions pars0 [0])
        (fun _ => Draw.keepDraw)).2.countP (fun l => !(l == pars0.PAD_IDX))
      = min (num_mlm_preds pars0.masked_rate ([0] : List Nat).length)
          (candidate_pred_positions pars0 [0]).length) := by
  decide

/-- C2 witness: spec §8 scenario, identity shuffle, leave-unchanged
draws; exactly one label position is produced. -/
theorem masked_label_count_witness :
    (candidate_pred_positions pars0 [2, 5, 6, 7, 8, 3]).Perm
        (candidate_pred_positions pars0 [2, 5, 6, 7, 8, 3]) ∧
    candidate_pred_positions pars0 [2, 5, 6, 7, 8, 3] ≠ [] ∧
    (∀ i ∈ candidate_pred_positions pars0 [2, 5, 6, 7, 8, 3],
      ([2, 5, 6, 7, 8, 3] : List Nat).getD i 0 ≠ pars0.PAD_IDX) ∧
    (get_masked_sample pars0 [2, 5, 6, 7, 8, 3]
        (candidate_pred_positions pars0 [2, 5, 6, 7, 8, 3])
        (fun _ => Draw.keepDraw)).2.countP (fun l => !(l == pars0.PAD_IDX))
      = min (num_mlm_preds pars0.masked_rate ([2, 5, 6, 7, 8, 3] : List Nat).length)
          (candidate_pred_positions pars0 [2, 5, 6, 7, 8, 3]).length :=
  ⟨List.Perm.refl _, by decide, by decide,
    masked_label_count pars0 [2, 5, 6, 7, 8, 3]
      (candidate_pred_positions pars0 [2, 5, 6, 7, 8, 3]) (fun _ => Draw.keepDraw)
      (List.Perm.refl _) (by decide) (by decide)⟩

/-- `accuracy` yields no result exactly when the non-pad count is 0. -/
theorem accuracy_eq_none_iff (mlm_logits : List (List (List ℚ)))
    (mlm_labels : List (List Nat)) (PAD_IDX : Nat) :
    accuracy mlm_logits mlm_labels PAD_IDX = none ↔
      (((transpose2d 0 mlm_labels.length (mlm_labels.headD []).length
          mlm_labels).flatten.map (fun t => !(t == PAD_IDX))).filter id).length = 0 := by
  simp only [accuracy]
  split
  · next h => exact iff_of_true rfl h
  · next h => exact iff_of_false (by simp) h

/-- C10: `accuracy` divides by the count of labels differing from
`PAD_IDX` with no guard; it returns a result only when some label
differs from the pad value, and on a batch whose labels all equal
`PAD_IDX` it fails (the Python `ZeroDivisionError`, modelled `none`). -/
theorem accuracy_requires_nonpad (mlm_logits : List (List (List ℚ)))
    (mlm_labels : List (List Nat)) (PAD_IDX : Nat)
    (hrect : ∀ r ∈ mlm_labels, r.length = (mlm_labels.headD []).length) :
    accuracy mlm_logits mlm_labels PAD_IDX = none ↔
      ∀ r ∈ mlm_labels, ∀ l ∈ r, l = PAD_IDX := by
  rw [accuracy_eq_none_iff, List.length_eq_zero, List.filter_eq_nil_iff]
  constructor
  · intro h r hr l hl
    have hmem : l ∈ (transpose2d 0 mlm_labels.length (mlm_labels.headD []).length
        mlm_labels).flatten :=
      (mem_transpose2d_flatten 0 mlm_labels hrect l).mpr ⟨r, hr, hl⟩
    have hb := h _ (List.mem_map.mpr ⟨l, hmem, rfl⟩)
    simpa using hb
  · intro h b hb
    obtain ⟨t, ht, rfl⟩ := List.mem_map.mp hb
    obtain ⟨r, hr, hl⟩ := (mem_transpose2d_flatten 0 mlm_labels hrect t).mp ht
    have := h r hr t hl
    simp [this]

/-- C10 witness: a one-position batch whose only label is the pad value
makes `accuracy` fail. -/
theorem accuracy_requires_nonpad_witness :
    accuracy [[[(1 : ℚ)]]] [[0]] 0 = none :=
  (accuracy_requires_nonpad [[[(1 : ℚ)]]] [[0]] 0 (by decide)).mpr (by decide)

/-- With `batch_first = False` (how `generate_batch` calls it),
`pad_sequence` is pad-then-stack. -/
theorem pad_sequence_false_eq (seqs : List (List Nat)) (maxLen? : Option Nat)
    (pv : Nat) :
    pad_sequence seqs false maxLen? pv
      = stackDim1 0 (seqs.map (padOne (targetLen maxLen? (seqs.map List.length)) pv))
          (targetLen maxLen? (seqs.map List.length)) := rfl

/-- Pointwise content of a padded-and-stacked batch. -/
theorem pad_stack_getD (pv : Nat) (seqs : List (List Nat)) (T : Nat)
    {t b : Nat} (ht : t < T) (hb : b < seqs.length) :
    ((stackDim1 0 (seqs.map (padOne T pv)) T).getD t []).getD b 0
      = (if t < (seqs.getD b []).length then (seqs.getD b []).getD t 0 else pv) := by
  rw [stackDim1_getD 0 _ ht]
  rw [getD_map_of_lt [] 0 (fun s => s.getD t 0) (by simpa using hb)]
  rw [getD_map_of_lt [] [] (padOne T pv) hb]
  exact padOne_getD ht

/-- C8: collating a batch whose token and label sequences all already
have length `T`, with `fixed_len = T`, stacks the input sequences
unchanged (no padding or truncation alters any value). -/
theorem collate_idempotent (PAD T : Nat) (batch : List (List Nat × List Nat))
    (htok : ∀ p ∈ batch, (Prod.fst p).length = T)
    (hlab : ∀ p ∈ batch, (Prod.snd p).length = T) :
    (generate_batch PAD (some T) batch).1 = stackDim1 0 (batch.map Prod.fst) T ∧
    (generate_batch PAD (some T) batch).2.2 = stackDim1 0 (batch.map Prod.snd) T := by
  have hpadid : ∀ (s : List Nat), s.length = T → padOne T PAD s = s := by
    intro s hs
    unfold padOne
    rw [if_neg (by omega), ← hs, List.take_length]
  constructor
  · simp only [generate_batch, pad_sequence_false_eq, targetLen]
    congr 1
    calc (batch.map Prod.fst).map (padOne T PAD)
        = (batch.map Prod.fst).map id := by
          refine List.map_congr_left ?_
          intro s hs
          obtain ⟨p, hp, rfl⟩ := List.mem_map.mp hs
          exact hpadid _ (htok p hp)
      _ = batch.map Prod.fst := List.map_id _
  · simp only [generate_batch, pad_sequence_false_eq, targetLen]
    congr 1
    calc (batch.map Prod.snd).map (padOne T PAD)
        = (batch.map Prod.snd).map id := by
          refine List.map_congr_left ?_
          intro s hs
          obtain ⟨p, hp, rfl⟩ := List.mem_map.mp hs
          exact hpadid _ (hlab p hp)
      _ = batch.map Prod.snd := List.map_id _

/-- C8 witness at a concrete already-padded batch. -/
theorem collate_idempotent_witness :
    (∀ p ∈ [(([1, 2], [3, 4]) : List Nat × List Nat)], (Prod.fst p).length = 2) ∧
    (∀ p ∈ [(([1, 2], [3, 4]) : List Nat × List Nat)], (Prod.snd p).length = 2) ∧
    ((generate_batch 0 (some 2) [([1, 2], [3, 4])]).1
        = stackDim1 0 ([(([1, 2], [3, 4]) : List Nat × List Nat)].map Prod.fst) 2 ∧
      (generate_batch 0 (some 2) [([1, 2], [3, 4])]).2.2
        = stackDim1 0 ([(([1, 2], [3, 4]) : List Nat × List Nat)].map Prod.snd) 2) :=
  ⟨by decide, by decide, collate_idempotent 0 2 [([1, 2], [3, 4])] (by decide) (by decide)⟩

/-- C3: collating a non-empty batch of (token, label) sample pairs gives
token and label tensors of shape `[T, batch_size]` with `T` the
configured fixed length if given, else the maximum sample length in the
batch; each sample is right-padded with the pad value (or truncated when
longer than `T`); and the returned padding mask has shape
`[batch_size, T]` with `mask[b][t] = True` iff `tokens[t][b] = pad`. -/
theorem generate_batch_spec (PAD : Nat) (msl : Option Nat)
    (batch : List (List Nat × List Nat)) (hne : batch ≠ [])
    (hlen : ∀ p ∈ batch, (Prod.fst p).length = (Prod.snd p).length) :
    (generate_batch PAD msl batch).1.length
        = targetLen msl ((batch.map Prod.fst).map List.length) ∧
    (∀ row ∈ (generate_batch PAD msl batch).1, row.length = batch.length) ∧
    (generate_batch PAD msl batch).2.2.length
        = targetLen msl ((batch.map Prod.fst).map List.length) ∧
    (∀ row ∈ (generate_batch PAD msl batch).2.2, row.length = batch.length) ∧
    (generate_batch PAD msl batch).2.1.length = batch.length ∧
    (∀ row ∈ (generate_batch PAD msl batch).2.1,
      row.length = targetLen msl ((batch.map Prod.fst).map List.length)) ∧
    (∀ t, t < targetLen msl ((batch.map Prod.fst).map List.length) →
      ∀ b, b < batch.length →
        ((generate_batch PAD msl batch).1.getD t []).getD b 0
            = (if t < (batch.getD b ([], [])).1.length
                then (batch.getD b ([], [])).1.getD t 0 else PAD) ∧
        ((generate_batch PAD msl batch).2.2.getD t []).getD b 0
            = (if t < (batch.getD b ([], [])).2.length
                then (batch.getD b ([], [])).2.getD t 0 else PAD) ∧
        (((generate_batch PAD msl batch).2.1.getD b []).getD t false = true
          ↔ ((generate_batch PAD msl batch).1.getD t []).getD b 0 = PAD)) := by
  have hml : (batch.map Prod.snd).map List.length
      = (batch.map Prod.fst).map List.length := by
    rw [List.map_map, List.map_map]
    exact List.map_congr_left (fun p hp => (hlen p hp).symm)
  simp only [generate_batch, pad_sequence_false_eq]
  rw [hml]
  refine ⟨stackDim1_length _ _ _, ?_, stackDim1_length _ _ _, ?_,
    transpose2d_length _ _ _ _, ?_, ?_⟩
  · intro row hrow
    have := stackDim1_row_length _ _ _ row hrow
    simpa using this
  · intro row hrow
    have := stackDim1_row_length _ _ _ row hrow
    simpa using this
  · intro row hrow
    exact transpose2d_row_length _ _ _ _ row hrow
  · intro t ht b hb
    have hbf : b < (batch.map Prod.fst).length := by simpa using hb
    have hbs : b < (batch.map Prod.snd).length := by simpa using hb
    have htokrow : ((stackDim1 0 ((batch.map Prod.fst).map
        (padOne (targetLen msl ((batch.map Prod.fst).map List.length)) PAD))
        (targetLen msl ((batch.map Prod.fst).map List.length))).getD t []).length
        = batch.length := by
      have htl : t < (stackDim1 0 ((batch.map Prod.fst).map
          (padOne (targetLen msl ((batch.map Prod.fst).map List.length)) PAD))
          (targetLen msl ((batch.map Prod.fst).map List.length))).length := by
        rw [stackDim1_length]
        exact ht
      have hmem := List.getElem_mem htl
      have := stackDim1_row_length 0 ((batch.map Prod.fst).map
          (padOne (targetLen msl ((batch.map Prod.fst).map List.length)) PAD))
          (targetLen msl ((batch.map Prod.fst).map List.length)) _ hmem
      rw [List.getD_eq_getElem _ _ htl]
      simpa using this
    refine ⟨?_, ?_, ?_⟩
    · rw [pad_stack_getD PAD (batch.map Prod.fst) _ ht hbf,
        getD_map_of_lt ([], []) [] Prod.fst hb]
    · rw [pad_stack_getD PAD (batch.map Prod.snd) _ ht hbs,
        getD_map_of_lt ([], []) [] Prod.snd hb]
    · rw [transpose2d_getD false _ _ _ ht hb]
      rw [getD_map_of_lt [] [] (fun row => row.map (fun x => x == PAD))
        (by rw [stackDim1_length]; exact ht)]
      rw [getD_map_of_lt 0 false (fun x => x == PAD) (by rw [htokrow]; exact hb)]
      exact beq_iff_eq

/-- C3 witness: two samples of lengths 2 and 1 collated with no fixed
length. -/
theorem generate_batch_spec_witness :
    ([(([1, 2] : List Nat), ([0, 2] : List Nat)), ([3], [4])] ≠ []) ∧
    (∀ p ∈ [(([1, 2] : List Nat), ([0, 2] : List Nat)), ([3], [4])],
      (Prod.fst p).length = (Prod.snd p).length) ∧
    (generate_batch 0 none
        [(([1, 2] : List Nat), ([0, 2] : List Nat)), ([3], [4])]).1.length
      = targetLen none
          (([(([1, 2] : List Nat), ([0, 2] : List Nat)), ([3], [4])].map
            Prod.fst).map List.length) :=
  ⟨by decide, by decide,
    (generate_batch_spec 0 none [(([1, 2] : List Nat), ([0, 2] : List Nat)), ([3], [4])]
      (by decide) (by decide)).1⟩

end DnaMlm
